import Mathlib

/-!
Shallow embedding of the DDL worker (ddl/ddl_worker.go) of a distributed SQL
engine: the dependency resolver, the per-job state machine runner, finalization
into the history archive, the legacy adding-index queue drain, the owner-gated
drain pass and the schema version synchronization gating.  Definitions are
translated from the Go source.  Components of the repository that live outside
the provided source (the meta queue encoding, the trivial job state predicates,
the rollback conversion, the conflict predicate) are modelled from the
specification and marked as such in their documentation.
-/

/-- Job change kinds, mirroring the model.Action* enumeration used by the
runner dispatch switch. -/
inductive ActionType
  | createSchema | dropSchema | createTable | dropTable
  | addColumn | dropColumn | modifyColumn
  | addIndex | dropIndex | addForeignKey | dropForeignKey
  | truncateTable | rebaseAutoID | renameTable | setDefaultValue
  | shardRowID | modifyTableComment | renameIndex
deriving DecidableEq, Repr

/-- Job lifecycle states, mirroring model.JobState* (queued stands for the
initial JobStateNone). -/
inductive JobState
  | queued | running | cancelling | cancelled | rollingback | rollbackDone | done | synced
deriving DecidableEq, Repr

/-- Per-object visibility phase, mirroring model.State* of the schema states. -/
inductive SchemaState
  | none | deleteOnly | writeOnly | writeReorganization | public
deriving DecidableEq, Repr

/-- Errors surfaced by the worker: the store oversized-record error, the
invalid job version error of deleteRange, the cancellation error, the invalid
job error, and opaque store or handler errors. -/
inductive DDLError
  | entryTooLarge
  | invalidJobVersion (jobVer cur : Int)
  | cancelledDDLJob
  | invalidDDLJob
  | other (code : Nat)
deriving DecidableEq, Repr

/-- The BinlogInfo payload of a job (model.HistoryInfo): a schema version, the
auxiliary schema object payloads, and the completion timestamp stamped at
finalization. -/
structure HistoryInfo where
  schemaVersion : Int
  dbInfo : Option Nat
  tableInfo : Option Nat
  finishedTS : Nat
deriving DecidableEq, Repr

/-- HistoryInfo.Clean drops the auxiliary payloads (used to shrink an
oversized record). -/
def HistoryInfo.clean (h : HistoryInfo) : HistoryInfo :=
  { h with dbInfo := none, tableInfo := none }

/-- The unit of scheduled work (model.Job), with the fields the worker reads
and writes. -/
structure Job where
  id : Int
  jobType : ActionType
  schemaID : Int
  tableID : Int
  state : JobState
  schemaState : SchemaState
  args : Option (List Nat)
  rawArgs : Option (List Nat)
  dependencyID : Int
  error : Option DDLError
  errorCount : Nat
  snapshotVer : Int
  version : Int
  binlogInfo : HistoryInfo
deriving DecidableEq, Repr

/-- Modelled from the spec: Job.IsRunning, a trivial state predicate of the
model package. -/
def isRunning (j : Job) : Bool := decide (j.state = JobState.running)

/-- Modelled from the spec: Job.IsRollingback. -/
def isRollingback (j : Job) : Bool := decide (j.state = JobState.rollingback)

/-- Modelled from the spec: Job.IsRollbackDone. -/
def isRollbackDone (j : Job) : Bool := decide (j.state = JobState.rollbackDone)

/-- Modelled from the spec: Job.IsDone. -/
def isDone (j : Job) : Bool := decide (j.state = JobState.done)

/-- Modelled from the spec: Job.IsSynced. -/
def isSynced (j : Job) : Bool := decide (j.state = JobState.synced)

/-- Modelled from the spec: Job.IsCancelled. -/
def isCancelled (j : Job) : Bool := decide (j.state = JobState.cancelled)

/-- Modelled from the spec: Job.IsCancelling. -/
def isCancelling (j : Job) : Bool := decide (j.state = JobState.cancelling)

/-- Modelled from the spec: Job.IsFinished holds for the states that end the
active lifecycle of a job (Done, RollbackDone and Cancelled jobs await only
finalization). -/
def isFinished (j : Job) : Bool :=
  isDone j || isRollbackDone j || isCancelled j

/-- The two physical queues of the durable job queue (meta job list keys):
the current queue and the write-frozen legacy adding-index queue. -/
inductive JobListKey
  | defaultKey | addIndexKey
deriving DecidableEq, Repr

/-- The transactional metadata store state visible to the worker: the two job
queues, the history archive keyed by job ID, the scheduled range deletions,
and the start timestamp of the surrounding transaction. -/
structure MetaState where
  defaultQueue : List Job
  addIndexQueue : List Job
  history : List (Int × Job)
  delRanges : List Int
  startTS : Nat
deriving DecidableEq, Repr

/-- Modelled from the spec: the queue selected by the current job list key. -/
def getQueue : JobListKey → MetaState → List Job
  | JobListKey.defaultKey, st => st.defaultQueue
  | JobListKey.addIndexKey, st => st.addIndexQueue

/-- Modelled from the spec: replace the queue selected by the job list key. -/
def setQueue : JobListKey → List Job → MetaState → MetaState
  | JobListKey.defaultKey, q, st => { st with defaultQueue := q }
  | JobListKey.addIndexKey, q, st => { st with addIndexQueue := q }

/-- Modelled from the spec: meta.DeQueueDDLJob removes the head entry of the
selected queue (a pop of an empty queue is a no-op returning no job). -/
def deQueueDDLJob (k : JobListKey) (st : MetaState) : MetaState :=
  setQueue k (getQueue k st).tail st

/-- Modelled from the spec: meta.EnQueueDDLJob appends at the tail of the
selected queue. -/
def enQueueDDLJob (k : JobListKey) (job : Job) (st : MetaState) : MetaState :=
  setQueue k (getQueue k st ++ [job]) st

/-- Modelled from the spec: meta.AddHistoryDDLJob appends an immutable copy
keyed by ID to the history archive. -/
def addHistoryDDLJob (st : MetaState) (job : Job) : MetaState :=
  { st with history := st.history ++ [(job.id, job)] }

/-- Modelled from the spec: the deferred range-deletion collaborator records
the job (delRangeManager.addDelRangeJob). -/
def addDelRangeJob (st : MetaState) (job : Job) : MetaState :=
  { st with delRanges := st.delRanges ++ [job.id] }

/-- getFirstDDLJob returns the job at the head of the selected queue
(t.GetDDLJob(0)), or none when the queue is empty. -/
def getFirstDDLJob (k : JobListKey) (st : MetaState) : Option Job :=
  (getQueue k st).head?

/-- buildJobDependence (ddl_worker.go lines 95 to 114): scan the queued jobs,
skip those with an ID larger than the ID of the current job, and on the first
conflicting one record its ID as the dependency and stop.  The queued job list
is the result of meta.GetAllDDLJobs, which per the spec yields the queue
oldest first (IDs ascending); the conflict test Job.IsDependentOn is external
and passed as a parameter. -/
def buildJobDependence (isDependentOn : Job → Job → Bool) (jobs : List Job) (curJob : Job) : Job :=
  match jobs with
  | [] => curJob
  | job :: rest =>
    if curJob.id < job.id then buildJobDependence isDependentOn rest curJob
    else if isDependentOn curJob job then { curJob with dependencyID := job.id }
    else buildJobDependence isDependentOn rest curJob

/-- toTError wraps an error into a terror (identity at this level of
modelling). -/
def toTError (e : DDLError) : DDLError := e

/-- stampFinished writes the completion timestamp into the BinlogInfo of the
job (job.BinlogInfo.FinishedTS = t.StartTS). -/
def stampFinished (ts : Nat) (job : Job) : Job :=
  { job with binlogInfo := { job.binlogInfo with finishedTS := ts } }

/-- deleteRange (ddl_worker.go lines 172 to 180): schedule the range deletion
when the record version of the job is not newer than the process version,
otherwise fail with the invalid job version error. -/
def deleteRange (currentVersion : Int) (st : MetaState) (job : Job) : Except DDLError MetaState :=
  if job.version ≤ currentVersion then Except.ok (addDelRangeJob st job)
  else Except.error (DDLError.invalidJobVersion job.version currentVersion)

/-- requiresDelRange transcribes the finishDDLJob type switch: the four drop
and truncate kinds always schedule a range deletion, an AddIndex job does so
exactly when its state is RollbackDone, and every other kind never does. -/
def requiresDelRange (job : Job) : Bool :=
  match job.jobType with
  | ActionType.addIndex => isRollbackDone job
  | ActionType.dropSchema => true
  | ActionType.dropTable => true
  | ActionType.truncateTable => true
  | ActionType.dropIndex => true
  | _ => false

/-- The internal steps of finishDDLJob, in execution order, recorded as a
trace. -/
inductive FinishEvent
  | deleteRangeEv | dequeueEv | stampEv | appendEv
deriving DecidableEq, Repr

/-- The result of a successful finalization: the new store state, the job as
mutated (timestamp stamped), and the step trace. -/
structure FinishResult where
  meta : MetaState
  job : Job
  trace : List FinishEvent
deriving Repr

/-- finishDDLJob (ddl_worker.go lines 182 to 213): run the type-specific
deferred cleanup (deleteRange) first; on its failure return the error before
touching the queue; otherwise dequeue the head entry of the selected queue,
stamp the completion timestamp on the job, and append the job keyed by ID to
the history archive. -/
def finishDDLJob (currentVersion : Int) (k : JobListKey) (st : MetaState) (job : Job) :
    Except DDLError FinishResult :=
  let step1 : Except DDLError (MetaState × List FinishEvent) :=
    if requiresDelRange job then
      match deleteRange currentVersion st job with
      | Except.error e => Except.error e
      | Except.ok st1 => Except.ok (st1, [FinishEvent.deleteRangeEv])
    else Except.ok (st, [])
  match step1 with
  | Except.error e => Except.error e
  | Except.ok (st1, tr) =>
    let st2 := deQueueDDLJob k st1
    let job2 := stampFinished st1.startTS job
    let st3 := addHistoryDDLJob st2 job2
    Except.ok { meta := st3, job := job2,
                trace := tr ++ [FinishEvent.dequeueEv, FinishEvent.stampEv, FinishEvent.appendEv] }

/-- cancelledOversized is the in-place mutation of lines 150 to 153: clean
the BinlogInfo payload, record the error, reset the schema state and force
the job state to Cancelled. -/
def cancelledOversized (e : DDLError) (job : Job) : Job :=
  { job with
    binlogInfo := job.binlogInfo.clean,
    error := Option.some (toTError e),
    schemaState := SchemaState.none,
    state := JobState.cancelled }

/-- handleUpdateJobError (ddl_worker.go lines 142 to 157): no error passes
through; the store oversized-record error forces the job to Cancelled with its
auxiliary payload cleared and the job is still finalized; any other error is
returned unchanged. -/
def handleUpdateJobError (currentVersion : Int) (k : JobListKey) (st : MetaState) (job : Job)
    (err : Option DDLError) : Except DDLError (MetaState × Job) :=
  match err with
  | Option.none => Except.ok (st, job)
  | Option.some e =>
    if e = DDLError.entryTooLarge then
      match finishDDLJob currentVersion k st (cancelledOversized e job) with
      | Except.error e2 => Except.error e2
      | Except.ok r => Except.ok (r.meta, r.job)
    else Except.error e

/-- Modelled from the spec: re-encoding of the typed Args into the serialized
RawArgs form performed by the store update when updateRawArgs is set (§4.1 of
the spec, UpdateHead). -/
def encodeArgs (args : Option (List Nat)) : Option (List Nat) := args

/-- Modelled from the spec: meta.UpdateDDLJob at index 0 overwrites the head
entry of the selected queue with the given job; when updateRawArgs is true the
stored RawArgs becomes the serialization of the typed Args, otherwise the
previously stored RawArgs is kept. -/
def metaUpdateDDLJob (k : JobListKey) (st : MetaState) (job : Job) (updateRawArgs : Bool) :
    MetaState :=
  match getQueue k st with
  | [] => st
  | old :: rest =>
    let stored :=
      if updateRawArgs then { job with rawArgs := encodeArgs job.args }
      else { job with rawArgs := old.rawArgs }
    setQueue k (stored :: rest) st

/-- updateDDLJob (ddl_worker.go lines 159 to 170): persist the job at the
queue head; RawArgs is not re-encoded only when the run met an error while the
typed Args were never decoded (RawArgs non-nil and Args nil). -/
def updateDDLJob (st : MetaState) (job : Job) (meetErr : Bool) : MetaState :=
  let updateRawArgs :=
    if meetErr && (job.rawArgs.isSome && job.args.isNone) then false else true
  metaUpdateDDLJob JobListKey.defaultKey st job updateRawArgs

/-- reorgBackfilling transcribes the runDDLJob cancellation test (line 342):
the job is an AddIndex job in the WriteReorganization schema state with a
non-zero snapshot version, meaning the background backfill is in progress. -/
def reorgBackfilling (job : Job) : Bool :=
  decide (job.jobType = ActionType.addIndex) &&
  decide (job.schemaState = SchemaState.writeReorganization) &&
  decide (job.snapshotVer ≠ 0)

/-- The outcome of runDDLJob: the produced schema version, the handler error,
the mutated job, whether the background reorg cancellation token was
signalled, and whether a type handler was dispatched at all. -/
structure RunOutcome where
  ver : Int
  err : Option DDLError
  job : Job
  reorgNotified : Bool
  dispatched : Bool
deriving Repr

/-- runDDLJob (ddl_worker.go lines 333 to 413): a finished job is returned
untouched; a Cancelling job with no reorg backfill in progress is cancelled
directly (cancellation error recorded, error count bumped) without dispatch;
a Cancelling job with a backfill in progress signals the reorg cancellation
token and falls through; otherwise the state is set to Running unless the job
is rolling back or cancelling, the registered type handler runs, and a handler
error is recorded on the job with the error count bumped. -/
def runDDLJob (handler : ActionType → Job → Int × Option DDLError × Job) (job : Job) :
    RunOutcome :=
  if isFinished job then
    { ver := 0, err := Option.none, job := job, reorgNotified := false, dispatched := false }
  else if isCancelling job && ! reorgBackfilling job then
    { ver := 0, err := Option.none,
      job := { job with state := JobState.cancelled,
                        error := Option.some DDLError.cancelledDDLJob,
                        errorCount := job.errorCount + 1 },
      reorgNotified := false, dispatched := false }
  else
    let notified := isCancelling job
    let job1 :=
      if ! isRollingback job && ! isCancelling job then { job with state := JobState.running }
      else job
    let res := handler job1.jobType job1
    let job3 :=
      match res.2.1 with
      | Option.some e =>
        { res.2.2 with error := Option.some (toTError e), errorCount := res.2.2.errorCount + 1 }
      | Option.none => res.2.2
    { ver := res.1, err := res.2.1, job := job3, reorgNotified := notified, dispatched := true }

/-- jobMidFlight is the state test shared by line 317 (wait after dispatch)
and the guard of waitSchemaSynced (line 482): the job is Running, RollingBack,
Done or RollbackDone. -/
def jobMidFlight (j : Job) : Bool :=
  isRunning j || isRollingback j || isDone j || isRollbackDone j

/-- waitSchemaChangedBlocks (ddl_worker.go lines 428 to 448): the wait on the
schema version synchronizer actually blocks only when the configured wait time
is non-zero and the produced schema version is non-zero; a zero version means
no schema change occurred and the wait is skipped entirely. -/
def waitSchemaChangedBlocks (waitTime : Nat) (latestSchemaVersion : Int) : Bool :=
  if waitTime = 0 then false
  else if latestSchemaVersion = 0 then false
  else true

/-- afterDispatchWaits composes the call-site state test of line 317 with the
internal guards of waitSchemaChanged: whether the drain pass blocks on the
synchronizer after a dispatch that produced schema version ver. -/
def afterDispatchWaits (j : Job) (waitTime : Nat) (ver : Int) : Bool :=
  jobMidFlight j && waitSchemaChangedBlocks waitTime ver

/-- legacyFinalState transcribes lines 549 to 555 of cleanAddIndexQueueJobs:
a legacy job whose schema state is None is marked Cancelled, otherwise (the
Public case of the branch) it is marked Synced, before being finalized. -/
def legacyFinalState (j : Job) : Job :=
  if j.schemaState = SchemaState.none then { j with state := JobState.cancelled }
  else { j with state := JobState.synced }

/-- cleanLoop is the loop body of cleanAddIndexQueueJobs (ddl_worker.go lines
533 to 591), with explicit fuel: peek the head of the legacy adding-index
queue; when empty, the drain is complete; a job already in the Public or None
schema state is finalized directly into history from the legacy queue; any
other job is converted into a rollback job (getTableInfo, DecodeArgs,
findIndexByName and convert2RollbackJob are collapsed into the external
convert parameter, modelled from the spec as the same conversion used for
user-requested cancellation), dequeued from the legacy queue and re-enqueued
onto the current queue.  Fuel exhaustion yields none. -/
def cleanLoop (currentVersion : Int) (convert : Job → Except DDLError Job) :
    Nat → MetaState → Option (Except DDLError MetaState)
  | 0, _ => Option.none
  | fuel + 1, st =>
    match getFirstDDLJob JobListKey.addIndexKey st with
    | Option.none => Option.some (Except.ok st)
    | Option.some job =>
      if job.schemaState = SchemaState.public ∨ job.schemaState = SchemaState.none then
        match finishDDLJob currentVersion JobListKey.addIndexKey st (legacyFinalState job) with
        | Except.error e => Option.some (Except.error e)
        | Except.ok r => cleanLoop currentVersion convert fuel r.meta
      else
        match convert job with
        | Except.error e => Option.some (Except.error e)
        | Except.ok job2 =>
          let st1 := deQueueDDLJob JobListKey.addIndexKey st
          let st2 := enQueueDDLJob JobListKey.defaultKey job2 st1
          cleanLoop currentVersion convert fuel st2

/-- Observable events of one drain pass, used to state the temporal claims:
the legacy-queue cleaning step, the one-time version resynchronization wait,
a handler dispatch for a job, a finalization, an actual blocking wait on the
schema version synchronizer, and the local completion notification. -/
inductive Event
  | cleanQueue
  | resyncWait
  | runJob (id : Int)
  | finalize (id : Int)
  | schemaWait (ver : Int)
  | notifyDone
deriving DecidableEq, Repr

/-- Environment of one drain pass: whether this process owns the DDL owner
lease for the duration of the pass, whether the worker is shut down, the
wait time (2 times the lease), the process protocol version, the registered
type handlers, the rollback conversion used by the legacy drain, and the
store response to head updates (none means the update persists, some e means
the store rejects it, e.g. with the oversized-record error). -/
structure PassCfg where
  owner : Bool
  closed : Bool
  waitTime : Nat
  currentVersion : Int
  handler : ActionType → Job → Int × Option DDLError × Job
  convert : Job → Except DDLError Job
  updateErr : Job → Option DDLError

/-- postTxnEvents are the events after a successful iteration transaction
(ddl_worker.go lines 310 to 322): a blocking wait on the synchronizer when the
job is mid-flight and the produced version is non-zero, then the coalesced
completion notification when the job reached Synced. -/
def postTxnEvents (job : Job) (waitTime : Nat) (ver : Int) : List Event :=
  (if afterDispatchWaits job waitTime ver then [Event.schemaWait ver] else []) ++
  (if isSynced job then [Event.notifyDone] else [])

/-- passLoop is the iteration loop of handleDDLJobQueue (ddl_worker.go lines
231 to 324), with explicit fuel.  Each iteration: stop when closed; inside the
transaction, a non-owner returns with no job; when shouldCleanJobs is set the
legacy queue is drained and the pass ends; otherwise peek the head job (none
ends the pass); on the first iteration with a job (the local once flag) call
waitSchemaSynced — which waits only when the head job is mid-flight — and
continue the loop without dispatching; a peeked Done or RollbackDone job is
marked Synced (unless RollbackDone) and finalized; otherwise runDDLJob
dispatches, a job it left Cancelled is finalized, and any other job is
persisted at the head with handleUpdateJobError applied to the store reply.
A transaction error aborts the pass with the pre-transaction state.  Fuel
exhaustion yields none. -/
def passLoop (cfg : PassCfg) (clean : Bool) :
    Nat → Bool → MetaState → Option (Option DDLError × MetaState × List Event)
  | 0, _, _ => Option.none
  | fuel + 1, once, st =>
    if cfg.closed then Option.some (Option.none, st, [])
    else if ! cfg.owner then Option.some (Option.none, st, [])
    else if clean then
      match cleanLoop cfg.currentVersion cfg.convert
          ((getQueue JobListKey.addIndexKey st).length + 1) st with
      | Option.none => Option.none
      | Option.some (Except.error e) => Option.some (Option.some e, st, [Event.cleanQueue])
      | Option.some (Except.ok st1) => Option.some (Option.none, st1, [Event.cleanQueue])
    else
      match getFirstDDLJob JobListKey.defaultKey st with
      | Option.none => Option.some (Option.none, st, [])
      | Option.some job =>
        if once then
          let evs := (if jobMidFlight job then [Event.resyncWait] else []) ++
            postTxnEvents job cfg.waitTime 0
          (passLoop cfg clean fuel false st).map (fun r => (r.1, r.2.1, evs ++ r.2.2))
        else if isDone job || isRollbackDone job then
          let job1 := if ! isRollbackDone job then { job with state := JobState.synced } else job
          match finishDDLJob cfg.currentVersion JobListKey.defaultKey st job1 with
          | Except.error e => Option.some (Option.some e, st, [])
          | Except.ok r =>
            let evs := [Event.finalize job.id] ++ postTxnEvents r.job cfg.waitTime 0
            (passLoop cfg clean fuel once r.meta).map (fun x => (x.1, x.2.1, evs ++ x.2.2))
        else
          let out := runDDLJob cfg.handler job
          if isCancelled out.job then
            match finishDDLJob cfg.currentVersion JobListKey.defaultKey st out.job with
            | Except.error e => Option.some (Option.some e, st, [Event.runJob job.id])
            | Except.ok r =>
              let evs := [Event.runJob job.id, Event.finalize out.job.id] ++
                postTxnEvents r.job cfg.waitTime out.ver
              (passLoop cfg clean fuel once r.meta).map (fun x => (x.1, x.2.1, evs ++ x.2.2))
          else
            let uerr := cfg.updateErr out.job
            let st1 := if uerr.isNone then updateDDLJob st out.job out.err.isSome else st
            match handleUpdateJobError cfg.currentVersion JobListKey.defaultKey st1 out.job uerr with
            | Except.error e => Option.some (Option.some e, st, [Event.runJob job.id])
            | Except.ok r =>
              let evs := [Event.runJob job.id] ++ postTxnEvents r.2 cfg.waitTime out.ver
              (passLoop cfg clean fuel once r.1).map (fun x => (x.1, x.2.1, evs ++ x.2.2))

/-- One wake of the worker: the pass environment, the jobs other sessions
enqueued onto the current queue since the previous wake, and the fuel bound
for the pass. -/
structure WakeCfg where
  cfg : PassCfg
  inject : List Job
  fuel : Nat

/-- The record kept of one drain pass for the temporal statements: the value
of the in-memory shouldCleanJobs flag when the pass started, the ownership and
shutdown environment, the error of the pass, and its event trace. -/
structure PassRecord where
  flagAtStart : Bool
  owner : Bool
  closed : Bool
  err : Option DDLError
  trace : List Event
deriving Repr

/-- workerLoop is the wake loop of onDDLWorker (ddl_worker.go lines 37 to 75)
restricted to a finite list of observed wakes: shouldCleanJobs starts true for
the lifetime of the process; each wake runs one drain pass (with its local
once flag starting true) and, when the pass returned no error, clears the
in-memory shouldCleanJobs flag. -/
def workerLoop : List WakeCfg → Bool → MetaState → Option (Bool × MetaState × List PassRecord)
  | [], flag, st => Option.some (flag, st, [])
  | w :: rest, flag, st =>
    let st0 : MetaState := { st with defaultQueue := st.defaultQueue ++ w.inject }
    match passLoop w.cfg flag w.fuel true st0 with
    | Option.none => Option.none
    | Option.some (e, st1, tr) =>
      let flag1 := if e.isNone then false else flag
      (workerLoop rest flag1 st1).map (fun r =>
        (r.1, r.2.1,
          { flagAtStart := flag, owner := w.cfg.owner, closed := w.cfg.closed,
            err := e, trace := tr } :: r.2.2))

/-- convertedList states the re-enqueue effect of the legacy drain claimed by
the spec: the legacy jobs not yet Public and not None, each replaced by its
rollback conversion, in queue order. -/
def convertedList (convert : Job → Except DDLError Job) : List Job → List Job
  | [] => []
  | j :: rest =>
    if j.schemaState = SchemaState.public ∨ j.schemaState = SchemaState.none then
      convertedList convert rest
    else
      (match convert j with
       | Except.ok j2 => [j2]
       | Except.error _ => []) ++ convertedList convert rest

/-- finalizedList states the history effect of the legacy drain claimed by the
spec: the legacy jobs already Public or None, finalized (state adjusted, then
timestamp stamped), keyed by ID, in queue order. -/
def finalizedList (ts : Nat) : List Job → List (Int × Job)
  | [] => []
  | j :: rest =>
    if j.schemaState = SchemaState.public ∨ j.schemaState = SchemaState.none then
      (j.id, stampFinished ts (legacyFinalState j)) :: finalizedList ts rest
    else finalizedList ts rest

/-- baseJob is a default-valued concrete job used as the template for
concrete inputs. -/
def baseJob : Job :=
  { id := 1, jobType := ActionType.createTable, schemaID := 1, tableID := 1,
    state := JobState.queued, schemaState := SchemaState.none,
    args := Option.none, rawArgs := Option.none, dependencyID := 0,
    error := Option.none, errorCount := 0, snapshotVer := 0, version := 1,
    binlogInfo := { schemaVersion := 0, dbInfo := Option.none, tableInfo := Option.none,
                    finishedTS := 0 } }

/-- emptyMeta is a concrete store state with empty queues. -/
def emptyMeta : MetaState :=
  { defaultQueue := [], addIndexQueue := [], history := [], delRanges := [], startTS := 100 }

/-- trivialHandler is a concrete type handler that changes nothing and
produces schema version 0. -/
def trivialHandler : ActionType → Job → Int × Option DDLError × Job :=
  fun _ j => (0, Option.none, j)

/-- doneHandler is a concrete type handler that marks the job Done and
produces schema version 1. -/
def doneHandler : ActionType → Job → Int × Option DDLError × Job :=
  fun _ j => (1, Option.none, { j with state := JobState.done })

/-- c2Job is a Running job used against the wait condition. -/
def c2Job : Job := { baseJob with state := JobState.running }

/-- c3Job is a Cancelling AddIndex job with a non-zero snapshot version whose
schema state is not WriteReorganization. -/
def c3Job : Job :=
  { baseJob with jobType := ActionType.addIndex, state := JobState.cancelling,
                 schemaState := SchemaState.writeOnly, snapshotVer := 7 }

/-- c4Cfg is an owner environment whose handler finishes every dispatched job. -/
def c4Cfg : PassCfg :=
  { owner := true, closed := false, waitTime := 2, currentVersion := 1,
    handler := doneHandler, convert := Except.ok, updateErr := fun _ => Option.none }

/-- c4Job1 is a Running head job for the first wake. -/
def c4Job1 : Job := { baseJob with id := 1, state := JobState.running }

/-- c4Job2 is a Running job injected before the second wake. -/
def c4Job2 : Job := { baseJob with id := 2, state := JobState.running }

/-- c4St is the store at worker start for the resynchronization scenario. -/
def c4St : MetaState := { emptyMeta with defaultQueue := [c4Job1] }

/-- c4Wakes is an incarnation of two wakes of the same owner process. -/
def c4Wakes : List WakeCfg :=
  [ { cfg := c4Cfg, inject := [], fuel := 8 },
    { cfg := c4Cfg, inject := [c4Job2], fuel := 8 } ]

/-- c4Run is the concrete two-wake run of the worker loop. -/
def c4Run : Option (Bool × MetaState × List PassRecord) := workerLoop c4Wakes false c4St

/-- cWitnessCfg is a closed (shut down) environment. -/
def cWitnessCfg : PassCfg :=
  { owner := true, closed := true, waitTime := 2, currentVersion := 1,
    handler := trivialHandler, convert := Except.ok, updateErr := fun _ => Option.none }

/-- c5NonOwnerCfg is an environment in which this process is not the owner. -/
def c5NonOwnerCfg : PassCfg :=
  { owner := false, closed := false, waitTime := 2, currentVersion := 1,
    handler := doneHandler, convert := Except.ok, updateErr := fun _ => Option.none }

/-- c5OwnerCfg is the same environment after the process becomes owner. -/
def c5OwnerCfg : PassCfg := { c5NonOwnerCfg with owner := true }

/-- c5Legacy is an unfinished legacy adding-index job awaiting migration. -/
def c5Legacy : Job :=
  { baseJob with id := 9, jobType := ActionType.addIndex,
                 schemaState := SchemaState.writeOnly, state := JobState.running }

/-- c5CurJob is a queued current-queue job. -/
def c5CurJob : Job := { baseJob with id := 3, state := JobState.queued }

/-- c5St is a store with one pending legacy job and one current job. -/
def c5St : MetaState :=
  { emptyMeta with defaultQueue := [c5CurJob], addIndexQueue := [c5Legacy] }

/-- c5Wakes is a process whose first wake happens before it becomes owner and
whose second wake happens as owner. -/
def c5Wakes : List WakeCfg :=
  [ { cfg := c5NonOwnerCfg, inject := [], fuel := 2 },
    { cfg := c5OwnerCfg, inject := [], fuel := 8 } ]

/-- c5Run is the concrete run for the migration gating scenario. -/
def c5Run : Option (Bool × MetaState × List PassRecord) := workerLoop c5Wakes true c5St

/-- c5wCfg is an owner environment used by the gating witness. -/
def c5wCfg : PassCfg :=
  { owner := true, closed := false, waitTime := 2, currentVersion := 1,
    handler := trivialHandler, convert := Except.ok, updateErr := fun _ => Option.none }

/-- c5wRec is the pass record produced by a single owner cleaning wake over
empty queues. -/
def c5wRec : PassRecord :=
  { flagAtStart := true, owner := true, closed := false, err := Option.none,
    trace := [Event.cleanQueue] }

/-- c5wWakes is the single owner wake used by the gating witness. -/
def c5wWakes : List WakeCfg := [{ cfg := c5wCfg, inject := [], fuel := 2 }]

/-- c6Job is a DropTable job with compatible record version carrying an
auxiliary binlog payload. -/
def c6Job : Job :=
  { baseJob with jobType := ActionType.dropTable, state := JobState.running,
                 binlogInfo := { schemaVersion := 0, dbInfo := Option.some 4,
                                 tableInfo := Option.some 5, finishedTS := 0 } }

/-- c6vJob is a DropTable job whose record version is newer than the process
version. -/
def c6vJob : Job :=
  { baseJob with jobType := ActionType.dropTable, version := 5, state := JobState.running }

/-- c7LegacyPublic is a legacy AddIndex job that already reached Public. -/
def c7LegacyPublic : Job :=
  { baseJob with id := 10, jobType := ActionType.addIndex,
                 schemaState := SchemaState.public, state := JobState.running }

/-- c7LegacyWrite is a legacy AddIndex job still in WriteOnly. -/
def c7LegacyWrite : Job :=
  { baseJob with id := 11, jobType := ActionType.addIndex,
                 schemaState := SchemaState.writeOnly, state := JobState.running }

/-- c7Convert is a concrete rollback conversion marking the job RollingBack. -/
def c7Convert : Job → Except DDLError Job :=
  fun j => Except.ok { j with state := JobState.rollingback }

/-- c7St is a store whose legacy queue holds one finished and one unfinished
job. -/
def c7St : MetaState :=
  { emptyMeta with addIndexQueue := [c7LegacyPublic, c7LegacyWrite] }

/-- c8Job is a DropTable job sitting at the queue head for finalization. -/
def c8Job : Job := { baseJob with jobType := ActionType.dropTable, state := JobState.done }

/-- c8St is the store holding c8Job at the current queue head. -/
def c8St : MetaState := { emptyMeta with defaultQueue := [c8Job] }

/-- c9Old is a queued job whose RawArgs were persisted but whose typed Args
were never decoded. -/
def c9Old : Job := { baseJob with rawArgs := Option.some [1, 2], args := Option.none }

/-- c9St is the store holding c9Old at the current queue head. -/
def c9St : MetaState := { emptyMeta with defaultQueue := [c9Old] }

/-- c10Job is a DropTable job whose record version is newer than the process
version. -/
def c10Job : Job := { baseJob with jobType := ActionType.dropTable, version := 2 }

/-- c10St is the store holding c10Job at the current queue head with a
pre-existing history entry. -/
def c10St : MetaState :=
  { emptyMeta with defaultQueue := [c10Job], history := [(0, baseJob)] }

theorem getQueue_setQueue (k : JobListKey) (q : List Job) (st : MetaState) :
    getQueue k (setQueue k q st) = q := by
  cases k <;> rfl

theorem setQueue_history (k : JobListKey) (q : List Job) (st : MetaState) :
    (setQueue k q st).history = st.history := by
  cases k <;> rfl

theorem setQueue_delRanges (k : JobListKey) (q : List Job) (st : MetaState) :
    (setQueue k q st).delRanges = st.delRanges := by
  cases k <;> rfl

theorem setQueue_startTS (k : JobListKey) (q : List Job) (st : MetaState) :
    (setQueue k q st).startTS = st.startTS := by
  cases k <;> rfl

theorem deQueue_history (k : JobListKey) (st : MetaState) :
    (deQueueDDLJob k st).history = st.history := by
  cases k <;> rfl

theorem deQueue_delRanges (k : JobListKey) (st : MetaState) :
    (deQueueDDLJob k st).delRanges = st.delRanges := by
  cases k <;> rfl

theorem getQueue_deQueue (k : JobListKey) (st : MetaState) :
    getQueue k (deQueueDDLJob k st) = (getQueue k st).tail := by
  cases k <;> rfl

theorem getQueue_addHistory (k : JobListKey) (st : MetaState) (job : Job) :
    getQueue k (addHistoryDDLJob st job) = getQueue k st := by
  cases k <;> rfl

theorem getQueue_addDelRange (k : JobListKey) (st : MetaState) (job : Job) :
    getQueue k (addDelRangeJob st job) = getQueue k st := by
  cases k <;> rfl

theorem finish_noRange (cv : Int) (k : JobListKey) (st : MetaState) (job : Job)
    (h : requiresDelRange job = false) :
    finishDDLJob cv k st job =
      Except.ok { meta := addHistoryDDLJob (deQueueDDLJob k st) (stampFinished st.startTS job),
                  job := stampFinished st.startTS job,
                  trace := [FinishEvent.dequeueEv, FinishEvent.stampEv, FinishEvent.appendEv] } := by
  simp [finishDDLJob, h]

theorem finish_range (cv : Int) (k : JobListKey) (st : MetaState) (job : Job)
    (h : requiresDelRange job = true) (hv : job.version ≤ cv) :
    finishDDLJob cv k st job =
      Except.ok { meta := addHistoryDDLJob (deQueueDDLJob k (addDelRangeJob st job))
                    (stampFinished st.startTS job),
                  job := stampFinished st.startTS job,
                  trace := [FinishEvent.deleteRangeEv, FinishEvent.dequeueEv,
                            FinishEvent.stampEv, FinishEvent.appendEv] } := by
  simp [finishDDLJob, h, deleteRange, hv, addDelRangeJob]

theorem finish_err (cv : Int) (k : JobListKey) (st : MetaState) (job : Job)
    (h : requiresDelRange job = true) (hv : cv < job.version) :
    finishDDLJob cv k st job = Except.error (DDLError.invalidJobVersion job.version cv) := by
  have : ¬ job.version ≤ cv := by omega
  simp [finishDDLJob, h, deleteRange, this]

/-- C1: the claim states that buildJobDependence records, among the queued
jobs with smaller ID conflicting with the new job, the one with the LARGEST
ID (the source line 94 comment states the same).  Evaluating the source scan
on the queue (oldest first, IDs ascending) holding jobs 1 and 2, both
conflicting with the new job 3, records DependencyID 1 — the FIRST, hence
smallest, conflicting ID — contradicting both the claim and the comment of
the code above the loop. -/
theorem buildJobDependence_picks_first_not_largest :
    (buildJobDependence (fun _ _ => true)
        [{ baseJob with id := 1 }, { baseJob with id := 2 }]
        { baseJob with id := 3 }).dependencyID = 1 ∧ (1 : Int) ≠ 2 := by
  constructor
  · rfl
  · decide

/-- C2 counterexample: with a zero wait time (lease 0), a Running job and a
non-zero produced schema version, the worker does not block, so the claimed
equivalence (blocks iff mid-flight state and non-zero version) is false as
stated. -/
theorem afterDispatchWaits_zero_waitTime_cex :
    ¬ (afterDispatchWaits c2Job 0 1 = true ↔
        ((c2Job.state = JobState.running ∨ c2Job.state = JobState.rollingback ∨
          c2Job.state = JobState.done ∨ c2Job.state = JobState.rollbackDone) ∧ (1 : Int) ≠ 0)) := by
  decide

/-- C2 amended: after a successful dispatch the worker blocks on the schema
version synchronizer if and only if the configured wait time (2 times the
lease) is non-zero, the produced schema version is non-zero, and the job
state is Running, RollingBack, Done or RollbackDone; in particular a zero
produced version always skips the wait. -/
theorem afterDispatchWaits_iff (j : Job) (w : Nat) (v : Int) :
    afterDispatchWaits j w v = true ↔
      (w ≠ 0 ∧ v ≠ 0 ∧
        (j.state = JobState.running ∨ j.state = JobState.rollingback ∨
         j.state = JobState.done ∨ j.state = JobState.rollbackDone)) := by
  by_cases hw : w = 0
  · simp [afterDispatchWaits, waitSchemaChangedBlocks, hw]
  · by_cases hv : v = 0
    · simp [afterDispatchWaits, waitSchemaChangedBlocks, hw, hv]
    · simp [afterDispatchWaits, waitSchemaChangedBlocks, hw, hv, jobMidFlight,
        isRunning, isRollingback, isDone, isRollbackDone]
      tauto

/-- C3 counterexample: a Cancelling AddIndex job with non-zero SnapshotVer
whose schema state is WriteOnly (not WriteReorganization) takes the direct
cancellation path — no reorg cancellation signal, no handler dispatch, state
forced to Cancelled — although the claim states that a non-zero SnapshotVer
alone selects the rollback path. -/
theorem runDDLJob_cancelling_nonreorg_cex :
    (runDDLJob trivialHandler c3Job).reorgNotified = false ∧
    (runDDLJob trivialHandler c3Job).dispatched = false ∧
    (runDDLJob trivialHandler c3Job).job.state = JobState.cancelled ∧
    c3Job.state = JobState.cancelling ∧ c3Job.snapshotVer ≠ 0 := by
  refine ⟨rfl, rfl, rfl, rfl, ?_⟩
  decide

/-- C3 amended: for a dispatched Cancelling job the rollback path (signal the
reorg cancellation token and fall through to normal dispatch) is taken if and
only if the job is an AddIndex job in schema state WriteReorganization with a
non-zero SnapshotVer; in every other case the runner cancels directly —
State becomes Cancelled, the cancellation error is recorded, ErrorCount is
incremented — and returns without dispatching a handler. -/
theorem runDDLJob_cancelling_paths (handler : ActionType → Job → Int × Option DDLError × Job)
    (j : Job) (h : j.state = JobState.cancelling) :
    ((j.jobType = ActionType.addIndex ∧ j.schemaState = SchemaState.writeReorganization ∧
        j.snapshotVer ≠ 0) →
      (runDDLJob handler j).reorgNotified = true ∧ (runDDLJob handler j).dispatched = true) ∧
    (¬ (j.jobType = ActionType.addIndex ∧ j.schemaState = SchemaState.writeReorganization ∧
        j.snapshotVer ≠ 0) →
      runDDLJob handler j =
        { ver := 0, err := Option.none,
          job := { j with state := JobState.cancelled,
                          error := Option.some DDLError.cancelledDDLJob,
                          errorCount := j.errorCount + 1 },
          reorgNotified := false, dispatched := false }) := by
  have hfin : isFinished j = false := by
    simp [isFinished, isDone, isRollbackDone, isCancelled, h]
  have hcan : isCancelling j = true := by simp [isCancelling, h]
  constructor
  · rintro ⟨h1, h2, h3⟩
    have hb : reorgBackfilling j = true := by simp [reorgBackfilling, h1, h2, h3]
    simp [runDDLJob, hfin, hcan, hb]
  · intro hn
    have hb : reorgBackfilling j = false := by
      rw [Bool.eq_false_iff]
      intro hb1
      apply hn
      have := by simpa [reorgBackfilling] using hb1
      tauto
    simp [runDDLJob, hfin, hcan, hb]

/-- C3 witness: the amended theorem applied at the concrete Cancelling job
c3Job with the trivial handler. -/
theorem runDDLJob_cancelling_paths_witness :
    c3Job.state = JobState.cancelling ∧
    (((c3Job.jobType = ActionType.addIndex ∧
        c3Job.schemaState = SchemaState.writeReorganization ∧ c3Job.snapshotVer ≠ 0) →
      (runDDLJob trivialHandler c3Job).reorgNotified = true ∧
      (runDDLJob trivialHandler c3Job).dispatched = true) ∧
    (¬ (c3Job.jobType = ActionType.addIndex ∧
        c3Job.schemaState = SchemaState.writeReorganization ∧ c3Job.snapshotVer ≠ 0) →
      runDDLJob trivialHandler c3Job =
        { ver := 0, err := Option.none,
          job := { c3Job with state := JobState.cancelled,
                              error := Option.some DDLError.cancelledDDLJob,
                              errorCount := c3Job.errorCount + 1 },
          reorgNotified := false, dispatched := false })) :=
  ⟨rfl, runDDLJob_cancelling_paths trivialHandler c3Job rfl⟩

theorem addHistory_history (st : MetaState) (job : Job) :
    (addHistoryDDLJob st job).history = st.history ++ [(job.id, job)] := rfl

theorem addHistory_delRanges (st : MetaState) (job : Job) :
    (addHistoryDDLJob st job).delRanges = st.delRanges := rfl

theorem addDelRange_history (st : MetaState) (job : Job) :
    (addDelRangeJob st job).history = st.history := rfl

theorem addDelRange_delRanges (st : MetaState) (job : Job) :
    (addDelRangeJob st job).delRanges = st.delRanges ++ [job.id] := rfl

theorem stampFinished_id (ts : Nat) (job : Job) : (stampFinished ts job).id = job.id := rfl

/-- C6 counterexample: a DropTable job whose record version (5) is newer than
the process version (1) and whose head update fails with the oversized-record
error is NOT archived: the forced finalization fails inside deleteRange and
the invalid-version error is returned, so the claim that such a job is always
still finalized into the history archive is false as stated. -/
theorem handleUpdateJobError_version_cex :
    handleUpdateJobError 1 JobListKey.defaultKey emptyMeta c6vJob
        (Option.some DDLError.entryTooLarge)
      = Except.error (DDLError.invalidJobVersion 5 1) := by
  rfl

/-- C6 amended: when the head update fails with the store oversized-record
error, the worker forces State to Cancelled, resets SchemaState to None,
clears the BinlogInfo payload, records the error on the job and — provided
the record version of the job is not newer than the process version, so that
the deferred range deletion of finalization cannot fail — still archives the
job into history; any update error other than oversized-record is returned
unchanged without modifying the job. -/
theorem handleUpdateJobError_entryTooLarge (cv : Int) (k : JobListKey) (st : MetaState)
    (job : Job) (e : DDLError) (hv : job.version ≤ cv) :
    (e = DDLError.entryTooLarge →
      ∃ st2 job2, handleUpdateJobError cv k st job (Option.some e) = Except.ok (st2, job2) ∧
        job2.state = JobState.cancelled ∧ job2.schemaState = SchemaState.none ∧
        job2.binlogInfo.dbInfo = Option.none ∧ job2.binlogInfo.tableInfo = Option.none ∧
        job2.error = Option.some DDLError.entryTooLarge ∧
        (job2.id, job2) ∈ st2.history) ∧
    (e ≠ DDLError.entryTooLarge →
      handleUpdateJobError cv k st job (Option.some e) = Except.error e) := by
  constructor
  · intro he
    subst he
    have hv1 : (cancelledOversized DDLError.entryTooLarge job).version ≤ cv := hv
    by_cases hr : requiresDelRange (cancelledOversized DDLError.entryTooLarge job) = true
    · have hfin := finish_range cv k st (cancelledOversized DDLError.entryTooLarge job) hr hv1
      refine ⟨addHistoryDDLJob
          (deQueueDDLJob k (addDelRangeJob st (cancelledOversized DDLError.entryTooLarge job)))
          (stampFinished st.startTS (cancelledOversized DDLError.entryTooLarge job)),
        stampFinished st.startTS (cancelledOversized DDLError.entryTooLarge job),
        ?_, rfl, rfl, rfl, rfl, rfl, ?_⟩
      · simp [handleUpdateJobError, hfin]
      · simp [addHistory_history, deQueue_history, addDelRange_history]
    · have hfin := finish_noRange cv k st (cancelledOversized DDLError.entryTooLarge job)
        (by simpa using hr)
      refine ⟨addHistoryDDLJob (deQueueDDLJob k st)
          (stampFinished st.startTS (cancelledOversized DDLError.entryTooLarge job)),
        stampFinished st.startTS (cancelledOversized DDLError.entryTooLarge job),
        ?_, rfl, rfl, rfl, rfl, rfl, ?_⟩
      · simp [handleUpdateJobError, hfin]
      · simp [addHistory_history, deQueue_history]
  · intro hne
    simp [handleUpdateJobError, hne]

/-- C6 witness: the amended theorem applied to the concrete DropTable job
c6Job (record version 1, process version 1) with the oversized-record
error. -/
theorem handleUpdateJobError_entryTooLarge_witness :
    c6Job.version ≤ 1 ∧
    ((DDLError.entryTooLarge = DDLError.entryTooLarge →
      ∃ st2 job2, handleUpdateJobError 1 JobListKey.defaultKey emptyMeta c6Job
          (Option.some DDLError.entryTooLarge) = Except.ok (st2, job2) ∧
        job2.state = JobState.cancelled ∧ job2.schemaState = SchemaState.none ∧
        job2.binlogInfo.dbInfo = Option.none ∧ job2.binlogInfo.tableInfo = Option.none ∧
        job2.error = Option.some DDLError.entryTooLarge ∧
        (job2.id, job2) ∈ st2.history) ∧
    (DDLError.entryTooLarge ≠ DDLError.entryTooLarge →
      handleUpdateJobError 1 JobListKey.defaultKey emptyMeta c6Job
          (Option.some DDLError.entryTooLarge) = Except.error DDLError.entryTooLarge)) :=
  ⟨by decide,
   handleUpdateJobError_entryTooLarge 1 JobListKey.defaultKey emptyMeta c6Job
     DDLError.entryTooLarge (by decide)⟩

/-- C8 counterexample: finalizing a concrete DropTable job performs the
deferred range-deletion registration BEFORE dequeuing the head job, not after
it as the claimed order (dequeue, cleanup, stamp, append) states. -/
theorem finishDDLJob_order_cex :
    ((finishDDLJob 1 JobListKey.defaultKey c8St c8Job).toOption.map FinishResult.trace) =
      Option.some [FinishEvent.deleteRangeEv, FinishEvent.dequeueEv, FinishEvent.stampEv,
        FinishEvent.appendEv] ∧
    [FinishEvent.deleteRangeEv, FinishEvent.dequeueEv, FinishEvent.stampEv,
        FinishEvent.appendEv] ≠
      [FinishEvent.dequeueEv, FinishEvent.deleteRangeEv, FinishEvent.stampEv,
        FinishEvent.appendEv] :=
  ⟨rfl, by decide⟩

/-- C8 amended: finalization, inside one transaction, performs the
type-specific deferred cleanup first — scheduling a range deletion for
DropSchema, DropTable, TruncateTable and DropIndex jobs, and for an AddIndex
job exactly when its State is RollbackDone — then dequeues the head job, then
stamps the completion timestamp on the job, then appends one copy keyed by ID
to the history archive, in that order (cleanup precedes the dequeue). -/
theorem finishDDLJob_effects (cv : Int) (k : JobListKey) (st : MetaState) (job : Job)
    (hv : job.version ≤ cv) :
    ∃ r, finishDDLJob cv k st job = Except.ok r ∧
      r.job = stampFinished st.startTS job ∧
      getQueue k r.meta = (getQueue k st).tail ∧
      r.meta.history = st.history ++ [(job.id, r.job)] ∧
      (requiresDelRange job = true →
        r.trace = [FinishEvent.deleteRangeEv, FinishEvent.dequeueEv, FinishEvent.stampEv,
          FinishEvent.appendEv] ∧ r.meta.delRanges = st.delRanges ++ [job.id]) ∧
      (requiresDelRange job = false →
        r.trace = [FinishEvent.dequeueEv, FinishEvent.stampEv, FinishEvent.appendEv] ∧
        r.meta.delRanges = st.delRanges) := by
  by_cases hr : requiresDelRange job = true
  · refine ⟨_, finish_range cv k st job hr hv, rfl, ?_, ?_, ?_, ?_⟩
    · simp [getQueue_addHistory, getQueue_deQueue, getQueue_addDelRange]
    · simp [addHistory_history, deQueue_history, addDelRange_history, stampFinished_id]
    · intro _
      exact ⟨rfl, by simp [addHistory_delRanges, deQueue_delRanges, addDelRange_delRanges]⟩
    · intro hq
      exact absurd hq (by simp [hr])
  · refine ⟨_, finish_noRange cv k st job (by simpa using hr), rfl, ?_, ?_, ?_, ?_⟩
    · simp [getQueue_addHistory, getQueue_deQueue]
    · simp [addHistory_history, deQueue_history, stampFinished_id]
    · intro hq
      exact absurd hq hr
    · intro _
      exact ⟨rfl, by simp [addHistory_delRanges, deQueue_delRanges]⟩

/-- C8 witness: the amended theorem applied to the concrete DropTable job at
the head of the current queue. -/
theorem finishDDLJob_effects_witness :
    c8Job.version ≤ 1 ∧
    (∃ r, finishDDLJob 1 JobListKey.defaultKey c8St c8Job = Except.ok r ∧
      r.job = stampFinished c8St.startTS c8Job ∧
      getQueue JobListKey.defaultKey r.meta = (getQueue JobListKey.defaultKey c8St).tail ∧
      r.meta.history = c8St.history ++ [(c8Job.id, r.job)] ∧
      (requiresDelRange c8Job = true →
        r.trace = [FinishEvent.deleteRangeEv, FinishEvent.dequeueEv, FinishEvent.stampEv,
          FinishEvent.appendEv] ∧ r.meta.delRanges = c8St.delRanges ++ [c8Job.id]) ∧
      (requiresDelRange c8Job = false →
        r.trace = [FinishEvent.dequeueEv, FinishEvent.stampEv, FinishEvent.appendEv] ∧
        r.meta.delRanges = c8St.delRanges)) :=
  ⟨by decide, finishDDLJob_effects 1 JobListKey.defaultKey c8St c8Job (by decide)⟩

/-- C9 counterexample: a head update for a job whose typed Args were never
decoded (Args nil, RawArgs non-nil) performed WITHOUT a run error (meetErr
false) re-encodes the empty typed form over the stored RawArgs instead of
preserving it, so the claim — which conditions only on Args never having
been decoded — is false as stated. -/
theorem updateDDLJob_overwrites_rawArgs_cex :
    c9Old.rawArgs = Option.some [1, 2] ∧ c9Old.args = Option.none ∧
    ((getQueue JobListKey.defaultKey (updateDDLJob c9St c9Old false)).head?.map Job.rawArgs)
      = Option.some Option.none := by
  refine ⟨rfl, rfl, rfl⟩

/-- C9 amended: the stored RawArgs of the head entry is preserved exactly
when the update follows a run error (meetErr) while the typed Args were never
decoded (RawArgs non-nil and Args nil); whenever the typed Args are present
the stored RawArgs becomes their re-serialization. -/
theorem updateDDLJob_rawArgs_rule (st : MetaState) (job old : Job) (rest : List Job)
    (meetErr : Bool) (h : getQueue JobListKey.defaultKey st = old :: rest) :
    (meetErr = true → job.rawArgs.isSome = true → job.args.isNone = true →
      getQueue JobListKey.defaultKey (updateDDLJob st job meetErr)
        = { job with rawArgs := old.rawArgs } :: rest) ∧
    (job.args.isSome = true →
      getQueue JobListKey.defaultKey (updateDDLJob st job meetErr)
        = { job with rawArgs := encodeArgs job.args } :: rest) := by
  constructor
  · intro hm hr ha
    subst hm
    simp [updateDDLJob, metaUpdateDDLJob, h, hr, ha, getQueue_setQueue]
  · intro ha
    have hn : job.args.isNone = false := by cases hja : job.args <;> simp_all
    simp [updateDDLJob, metaUpdateDDLJob, h, hn, getQueue_setQueue]

/-- C9 witness: the amended theorem applied at the concrete store c9St with a
run error, for the job c9Old whose Args were never decoded. -/
theorem updateDDLJob_rawArgs_rule_witness :
    getQueue JobListKey.defaultKey c9St = c9Old :: [] ∧
    ((true = true → c9Old.rawArgs.isSome = true → c9Old.args.isNone = true →
      getQueue JobListKey.defaultKey (updateDDLJob c9St c9Old true)
        = { c9Old with rawArgs := c9Old.rawArgs } :: []) ∧
    (c9Old.args.isSome = true →
      getQueue JobListKey.defaultKey (updateDDLJob c9St c9Old true)
        = { c9Old with rawArgs := encodeArgs c9Old.args } :: [])) :=
  ⟨rfl, updateDDLJob_rawArgs_rule c9St c9Old c9Old [] true rfl⟩

/-- C10: finalizing a job whose record version is newer than the process
version, when its type requires the deferred range deletion (DropSchema,
DropTable, TruncateTable, DropIndex, or AddIndex in state RollbackDone),
fails with the invalid-job-version error produced before the dequeue step, so
no state is produced: the job is neither removed from the active queue nor
added to the history archive (the surrounding transaction aborts). -/
theorem finishDDLJob_invalidVersion (cv : Int) (k : JobListKey) (st : MetaState) (job : Job)
    (hv : cv < job.version)
    (ht : job.jobType = ActionType.dropSchema ∨ job.jobType = ActionType.dropTable ∨
      job.jobType = ActionType.truncateTable ∨ job.jobType = ActionType.dropIndex ∨
      (job.jobType = ActionType.addIndex ∧ job.state = JobState.rollbackDone)) :
    finishDDLJob cv k st job = Except.error (DDLError.invalidJobVersion job.version cv) := by
  have hr : requiresDelRange job = true := by
    rcases ht with h1 | h1 | h1 | h1 | ⟨h1, h2⟩ <;>
      simp [requiresDelRange, h1, isRollbackDone, *]
  exact finish_err cv k st job hr hv

/-- C10 witness: the theorem applied to the concrete DropTable job c10Job of
record version 2 under process version 1. -/
theorem finishDDLJob_invalidVersion_witness :
    (1 : Int) < c10Job.version ∧
    (c10Job.jobType = ActionType.dropSchema ∨ c10Job.jobType = ActionType.dropTable ∨
      c10Job.jobType = ActionType.truncateTable ∨ c10Job.jobType = ActionType.dropIndex ∨
      (c10Job.jobType = ActionType.addIndex ∧ c10Job.state = JobState.rollbackDone)) ∧
    finishDDLJob 1 JobListKey.defaultKey c10St c10Job =
      Except.error (DDLError.invalidJobVersion c10Job.version 1) :=
  ⟨by decide, by decide,
   finishDDLJob_invalidVersion 1 JobListKey.defaultKey c10St c10Job (by decide) (by decide)⟩

theorem legacyFinalState_id (j : Job) : (legacyFinalState j).id = j.id := by
  unfold legacyFinalState
  split <;> rfl

theorem requiresDelRange_legacy (j : Job) (h : j.jobType = ActionType.addIndex) :
    requiresDelRange (legacyFinalState j) = false := by
  unfold legacyFinalState
  split <;> simp [requiresDelRange, h, isRollbackDone]

/-- C7: the legacy adding-index queue drain finalizes every legacy job whose
SchemaState is Public or None directly into history (never re-enqueuing it),
converts every other legacy job into a rollback job, removes it from the
legacy queue and appends it onto the current queue, and keeps going until the
legacy queue is empty: with enough fuel and a conversion that succeeds on the
pending jobs, the resulting state has an empty legacy queue, the current
queue extended exactly by the converted jobs in order, and the history
extended exactly by the finalized Public or None jobs in order. -/
theorem cleanAddIndexQueue_characterization (cv : Int) (convert : Job → Except DDLError Job) :
    ∀ (fuel : Nat) (st : MetaState),
      (∀ j ∈ st.addIndexQueue, j.jobType = ActionType.addIndex) →
      (∀ j ∈ st.addIndexQueue, ∃ j2, convert j = Except.ok j2) →
      st.addIndexQueue.length < fuel →
      cleanLoop cv convert fuel st =
        Option.some (Except.ok { st with
          addIndexQueue := [],
          defaultQueue := st.defaultQueue ++ convertedList convert st.addIndexQueue,
          history := st.history ++ finalizedList st.startTS st.addIndexQueue }) := by
  intro fuel
  induction fuel with
  | zero =>
    intro st _ _ hf
    omega
  | succ n ih =>
    intro st h1 h2 hf
    obtain ⟨dq, aq, hi, dr, ts⟩ := st
    cases aq with
    | nil =>
      simp [cleanLoop, getFirstDDLJob, getQueue, convertedList, finalizedList]
    | cons j rest =>
      have htj : j.jobType = ActionType.addIndex := h1 j (List.mem_cons_self j rest)
      by_cases hs : j.schemaState = SchemaState.public ∨ j.schemaState = SchemaState.none
      · have hreq := requiresDelRange_legacy j htj
        have hfin := finish_noRange cv JobListKey.addIndexKey
          (MetaState.mk dq (j :: rest) hi dr ts) (legacyFinalState j) hreq
        have hstep : cleanLoop cv convert (n + 1) (MetaState.mk dq (j :: rest) hi dr ts) =
            cleanLoop cv convert n (MetaState.mk dq rest
              (hi ++ [((legacyFinalState j).id, stampFinished ts (legacyFinalState j))]) dr ts) := by
          simp [cleanLoop, getFirstDDLJob, getQueue, hs, hfin, deQueueDDLJob, setQueue,
            addHistoryDDLJob, stampFinished_id]
        rw [hstep, ih _ (fun x hx => h1 x (List.mem_cons_of_mem j hx))
          (fun x hx => h2 x (List.mem_cons_of_mem j hx))
          (by simpa using Nat.lt_of_succ_lt_succ hf)]
        simp [convertedList, finalizedList, hs, legacyFinalState_id, List.append_assoc]
      · obtain ⟨j2, hj2⟩ := h2 j (List.mem_cons_self j rest)
        have hstep : cleanLoop cv convert (n + 1) (MetaState.mk dq (j :: rest) hi dr ts) =
            cleanLoop cv convert n (MetaState.mk (dq ++ [j2]) rest hi dr ts) := by
          simp [cleanLoop, getFirstDDLJob, getQueue, hs, hj2, deQueueDDLJob, enQueueDDLJob,
            setQueue]
        rw [hstep, ih _ (fun x hx => h1 x (List.mem_cons_of_mem j hx))
          (fun x hx => h2 x (List.mem_cons_of_mem j hx))
          (by simpa using Nat.lt_of_succ_lt_succ hf)]
        simp [convertedList, finalizedList, hs, hj2, List.append_assoc]

/-- C7 witness: the characterization applied to a concrete legacy queue
holding one Public job and one WriteOnly job, with the concrete rollback
conversion. -/
theorem cleanAddIndexQueue_characterization_witness :
    (∀ j ∈ c7St.addIndexQueue, j.jobType = ActionType.addIndex) ∧
    (∀ j ∈ c7St.addIndexQueue, ∃ j2, c7Convert j = Except.ok j2) ∧
    c7St.addIndexQueue.length < 3 ∧
    cleanLoop 1 c7Convert 3 c7St =
      Option.some (Except.ok { c7St with
        addIndexQueue := [],
        defaultQueue := c7St.defaultQueue ++ convertedList c7Convert c7St.addIndexQueue,
        history := c7St.history ++ finalizedList c7St.startTS c7St.addIndexQueue }) :=
  ⟨by decide,
   fun j _ => ⟨{ j with state := JobState.rollingback }, rfl⟩,
   by decide,
   cleanAddIndexQueue_characterization 1 c7Convert 3 c7St (by decide)
     (fun j _ => ⟨{ j with state := JobState.rollingback }, rfl⟩) (by decide)⟩

theorem resync_not_in_postTxn (j : Job) (w : Nat) (v : Int) :
    Event.resyncWait ∉ postTxnEvents j w v := by
  unfold postTxnEvents
  split <;> split <;> simp

theorem clean_not_in_postTxn (j : Job) (w : Nat) (v : Int) :
    Event.cleanQueue ∉ postTxnEvents j w v := by
  unfold postTxnEvents
  split <;> split <;> simp

theorem passLoop_trace_mem :
    ∀ (fuel : Nat) (cfg : PassCfg) (clean once : Bool) (st : MetaState)
      (r : Option DDLError × MetaState × List Event),
      passLoop cfg clean fuel once st = Option.some r →
      (Event.resyncWait ∈ r.2.2 → once = true) ∧
      (Event.cleanQueue ∈ r.2.2 →
        clean = true ∧ cfg.owner = true ∧ cfg.closed = false ∧ r.2.2 = [Event.cleanQueue]) := by
  intro fuel
  induction fuel with
  | zero =>
    intro cfg clean once st r h
    simp [passLoop] at h
  | succ n ih =>
    intro cfg clean once st r h
    simp only [passLoop] at h
    split at h
    case isTrue hc =>
      cases h
      exact ⟨by simp, by simp⟩
    case isFalse hc =>
      split at h
      case isTrue how =>
        cases h
        exact ⟨by simp, by simp⟩
      case isFalse how =>
        split at h
        case isTrue hcl =>
          split at h
          case h_1 heq => cases h
          case h_2 e heq =>
            cases h
            exact ⟨by simp, fun _ => ⟨hcl, by simpa using how, by simpa using hc, rfl⟩⟩
          case h_3 st2 heq =>
            cases h
            exact ⟨by simp, fun _ => ⟨hcl, by simpa using how, by simpa using hc, rfl⟩⟩
        case isFalse hcl =>
          split at h
          case h_1 heq =>
            cases h
            exact ⟨by simp, by simp⟩
          case h_2 job heq =>
            split at h
            case isTrue hon =>
              rw [Option.map_eq_some'] at h
              obtain ⟨a, ha, rfl⟩ := h
              have hrec := ih cfg clean false st a ha
              constructor
              · intro _
                exact hon
              · intro hm
                rcases List.mem_append.mp hm with h1 | h2
                · exfalso
                  revert h1
                  simp only [List.mem_append]
                  rintro (h1 | h1)
                  · revert h1
                    split <;> simp
                  · exact clean_not_in_postTxn _ _ _ h1
                · exact absurd (hrec.2 h2).1 hcl
            case isFalse hon =>
              split at h
              case isTrue hd =>
                split at h
                case h_1 e heq =>
                  cases h
                  exact ⟨by simp, by simp⟩
                case h_2 fr heq =>
                  rw [Option.map_eq_some'] at h
                  obtain ⟨a, ha, rfl⟩ := h
                  have hrec := ih cfg clean once fr.meta a ha
                  constructor
                  · intro hm
                    rcases List.mem_append.mp hm with h1 | h2
                    · exfalso
                      revert h1
                      simp only [List.cons_append, List.nil_append, List.mem_cons]
                      rintro (h1 | h1)
                      · exact Event.noConfusion h1
                      · exact resync_not_in_postTxn _ _ _ h1
                    · exact hrec.1 h2
                  · intro hm
                    rcases List.mem_append.mp hm with h1 | h2
                    · exfalso
                      revert h1
                      simp only [List.cons_append, List.nil_append, List.mem_cons]
                      rintro (h1 | h1)
                      · exact Event.noConfusion h1
                      · exact clean_not_in_postTxn _ _ _ h1
                    · exact absurd (hrec.2 h2).1 hcl
              case isFalse hd =>
                split at h
                case isTrue hcj =>
                  split at h
                  case h_1 e heq =>
                    cases h
                    exact ⟨by simp, by simp⟩
                  case h_2 fr heq =>
                    rw [Option.map_eq_some'] at h
                    obtain ⟨a, ha, rfl⟩ := h
                    have hrec := ih cfg clean once fr.meta a ha
                    constructor
                    · intro hm
                      rcases List.mem_append.mp hm with h1 | h2
                      · exfalso
                        revert h1
                        simp only [List.cons_append, List.nil_append, List.mem_cons]
                        rintro (h1 | h1 | h1)
                        · exact Event.noConfusion h1
                        · exact Event.noConfusion h1
                        · exact resync_not_in_postTxn _ _ _ h1
                      · exact hrec.1 h2
                    · intro hm
                      rcases List.mem_append.mp hm with h1 | h2
                      · exfalso
                        revert h1
                        simp only [List.cons_append, List.nil_append, List.mem_cons]
                        rintro (h1 | h1 | h1)
                        · exact Event.noConfusion h1
                        · exact Event.noConfusion h1
                        · exact clean_not_in_postTxn _ _ _ h1
                      · exact absurd (hrec.2 h2).1 hcl
                case isFalse hcj =>
                  split at h
                  case h_1 e heq =>
                    cases h
                    exact ⟨by simp, by simp⟩
                  case h_2 pr heq =>
                    rw [Option.map_eq_some'] at h
                    obtain ⟨a, ha, rfl⟩ := h
                    have hrec := ih cfg clean once pr.1 a ha
                    constructor
                    · intro hm
                      rcases List.mem_append.mp hm with h1 | h2
                      · exfalso
                        revert h1
                        simp only [List.cons_append, List.nil_append, List.mem_cons]
                        rintro (h1 | h1)
                        · exact Event.noConfusion h1
                        · exact resync_not_in_postTxn _ _ _ h1
                      · exact hrec.1 h2
                    · intro hm
                      rcases List.mem_append.mp hm with h1 | h2
                      · exfalso
                        revert h1
                        simp only [List.cons_append, List.nil_append, List.mem_cons]
                        rintro (h1 | h1)
                        · exact Event.noConfusion h1
                        · exact clean_not_in_postTxn _ _ _ h1
                      · exact absurd (hrec.2 h2).1 hcl

theorem passLoop_cleaning_trace (fuel : Nat) (cfg : PassCfg) (once : Bool) (st : MetaState)
    (r : Option DDLError × MetaState × List Event)
    (hc : cfg.closed = false) (how : cfg.owner = true)
    (h : passLoop cfg true fuel once st = Option.some r) : r.2.2 = [Event.cleanQueue] := by
  cases fuel with
  | zero => simp [passLoop] at h
  | succ n =>
    simp only [passLoop] at h
    rw [if_neg (by simp [hc]), if_neg (by simp [how]), if_pos trivial] at h
    split at h
    case h_1 heq => cases h
    case h_2 e heq =>
      cases h
      rfl
    case h_3 st2 heq =>
      cases h
      rfl

theorem jobMidFlight_not_synced (j : Job) (h : jobMidFlight j = true) : isSynced j = false := by
  simp only [jobMidFlight, isRunning, isRollingback, isDone, isRollbackDone, Bool.or_eq_true,
    decide_eq_true_eq] at h
  rcases h with ((h | h) | h) | h <;> simp [isSynced, h]

theorem blocks_zero_ver (w : Nat) : waitSchemaChangedBlocks w 0 = false := by
  unfold waitSchemaChangedBlocks
  split <;> simp

theorem postTxn_zero (j : Job) (w : Nat) :
    postTxnEvents j w 0 = if isSynced j then [Event.notifyDone] else [] := by
  simp [postTxnEvents, afterDispatchWaits, blocks_zero_ver]

/-- C4 amended: within one drain pass the version-resynchronization wait is
performed at most once and only as the first event of the first iteration of
the pass; it is performed exactly when the worker is an un-closed owner not in
the legacy-cleaning mode and the head job of the current queue is mid-flight
(Running, RollingBack, Done or RollbackDone).  The pass does not stop after
the wait (the counterexample shows the same pass dispatching jobs right after
it), and the wait recurs on later passes of the same owner incarnation since
the guarding once flag is local to each pass. -/
theorem resyncWait_first_iteration_only (cfg : PassCfg) (clean : Bool) (fuel : Nat)
    (st : MetaState) (err : Option DDLError) (st1 : MetaState) (tr : List Event)
    (h : passLoop cfg clean fuel true st = Option.some (err, st1, tr)) :
    (tr.drop 1).count Event.resyncWait = 0 ∧
    (Event.resyncWait ∈ tr ↔
      (cfg.closed = false ∧ cfg.owner = true ∧ clean = false ∧
        ∃ j, getFirstDDLJob JobListKey.defaultKey st = Option.some j ∧ jobMidFlight j = true)) := by
  cases fuel with
  | zero => simp [passLoop] at h
  | succ n =>
    simp only [passLoop] at h
    split at h
    case isTrue hc =>
      cases h
      exact ⟨by simp, by simp [hc]⟩
    case isFalse hc =>
      split at h
      case isTrue how =>
        cases h
        have how2 : cfg.owner = false := by simpa using how
        exact ⟨by simp, by simp [how2]⟩
      case isFalse how =>
        split at h
        case isTrue hcl =>
          split at h
          case h_1 heq => cases h
          case h_2 e heq =>
            cases h
            exact ⟨by simp, by simp [hcl]⟩
          case h_3 st2 heq =>
            cases h
            exact ⟨by simp, by simp [hcl]⟩
        case isFalse hcl =>
          split at h
          case h_1 heq =>
            cases h
            exact ⟨by simp, by simp [heq]⟩
          case h_2 job heq =>
            split at h
            case isFalse hon => exact absurd trivial hon
            case isTrue hon =>
              rw [Option.map_eq_some'] at h
              obtain ⟨a, ha, heq2⟩ := h
              injection heq2 with h1 h23
              injection h23 with h2 h3
              subst h3
              have hrec := passLoop_trace_mem n cfg clean false st a ha
              have hnores : Event.resyncWait ∉ a.2.2 := fun hm => by simpa using hrec.1 hm
              rcases Bool.eq_false_or_eq_true (jobMidFlight job) with hmf | hmf
              swap
              · have hall : Event.resyncWait ∉
                    ((if jobMidFlight job then [Event.resyncWait] else []) ++
                      postTxnEvents job cfg.waitTime 0) ++ a.2.2 := by
                  intro hm
                  rcases List.mem_append.mp hm with h4 | h4
                  · rcases List.mem_append.mp h4 with h5 | h5
                    · rw [hmf] at h5
                      simp at h5
                    · exact resync_not_in_postTxn _ _ _ h5
                  · exact hnores h4
                constructor
                · exact List.count_eq_zero.mpr (fun hm => hall (List.drop_subset 1 _ hm))
                · constructor
                  · intro hm
                    exact absurd hm hall
                  · rintro ⟨_, _, _, j, hj, hmf2⟩
                    rw [heq] at hj
                    injection hj with hj
                    subst hj
                    rw [hmf] at hmf2
                    cases hmf2
              · have hsync := jobMidFlight_not_synced job hmf
                have hevs : ((if jobMidFlight job then [Event.resyncWait] else []) ++
                    postTxnEvents job cfg.waitTime 0) ++ a.2.2 = Event.resyncWait :: a.2.2 := by
                  rw [hmf, postTxn_zero, hsync]
                  simp
                rw [hevs]
                constructor
                · simpa using List.count_eq_zero.mpr hnores
                · constructor
                  · intro _
                    exact ⟨by simpa using hc, by simpa using how, by simpa using hcl,
                      job, heq, hmf⟩
                  · intro _
                    simp

/-- C4 witness: the amended theorem applied to a pass in a closed (shut down)
environment, whose trace is empty. -/
theorem resyncWait_first_iteration_only_witness :
    passLoop cWitnessCfg false 1 true emptyMeta = Option.some (Option.none, emptyMeta, []) ∧
    ((([] : List Event).drop 1).count Event.resyncWait = 0 ∧
      (Event.resyncWait ∈ ([] : List Event) ↔
        (cWitnessCfg.closed = false ∧ cWitnessCfg.owner = true ∧ false = false ∧
          ∃ j, getFirstDDLJob JobListKey.defaultKey emptyMeta = Option.some j ∧
            jobMidFlight j = true))) :=
  ⟨rfl, resyncWait_first_iteration_only cWitnessCfg false 1 emptyMeta Option.none emptyMeta [] rfl⟩

/-- C4 counterexample: one owner incarnation of two wakes, with a mid-flight
head job at each wake.  Both passes perform the resynchronization wait — so
it does not run exactly once per owner incarnation — and the first pass,
after the wait, goes on to dispatch, synchronize and finalize the head job in
the same pass instead of stopping without processing any job, as the claim
states. -/
theorem resyncWait_repeats_and_pass_continues_cex :
    (c4Run.map (fun r => r.2.2.map PassRecord.trace)) =
      Option.some
        [[Event.resyncWait, Event.runJob 1, Event.schemaWait 1, Event.finalize 1,
          Event.notifyDone],
         [Event.resyncWait, Event.runJob 2, Event.schemaWait 1, Event.finalize 2,
          Event.notifyDone]] := by
  rfl

/-- C5 amended: the legacy-queue migration is gated by the in-memory
shouldCleanJobs flag of the worker process, not by a persisted marker.  In
every recorded drain pass, the cleaning step runs if and only if the flag was
still set at the start of the pass and the process was an un-closed owner;
a cleaning pass does nothing but clean (no current-queue job is processed in
it); and the flag threads across wakes by being cleared after any pass that
returned no error — including a pass in which the process was not the owner
and nothing was drained, which is what allows the migration to be skipped
entirely for a later owner incarnation of the same process. -/
theorem cleanJobs_gating :
    ∀ (wakes : List WakeCfg) (flag : Bool) (st : MetaState) (flagF : Bool) (stF : MetaState)
      (recs : List PassRecord),
      workerLoop wakes flag st = Option.some (flagF, stF, recs) →
      (∀ rec ∈ recs, (Event.cleanQueue ∈ rec.trace ↔
          (rec.flagAtStart = true ∧ rec.owner = true ∧ rec.closed = false))) ∧
      (∀ rec ∈ recs, Event.cleanQueue ∈ rec.trace → rec.trace = [Event.cleanQueue]) ∧
      (∀ rec0, recs.head? = Option.some rec0 → rec0.flagAtStart = flag) ∧
      List.Chain' (fun a b => b.flagAtStart = if a.err.isNone then false else a.flagAtStart)
        recs := by
  intro wakes
  induction wakes with
  | nil =>
    intro flag st flagF stF recs h
    simp only [workerLoop, Option.some.injEq, Prod.mk.injEq] at h
    obtain ⟨-, -, h3⟩ := h
    subst h3
    exact ⟨by simp, by simp, by simp, List.chain'_nil⟩
  | cons w rest ih =>
    intro flag st flagF stF recs h
    simp only [workerLoop] at h
    split at h
    case h_1 heq => cases h
    case h_2 e st1 tr heq =>
      rw [Option.map_eq_some'] at h
      obtain ⟨a, ha, heq2⟩ := h
      injection heq2 with h1 h23
      injection h23 with h2 h3
      subst h3
      obtain ⟨hA, hB, hC, hD⟩ := ih (if e.isNone then false else flag) st1 a.1 a.2.1 a.2.2 ha
      refine ⟨?_, ?_, ?_, ?_⟩
      · intro rec hrec
        rcases List.mem_cons.mp hrec with rfl | hrec2
        · constructor
          · intro hm
            have hmem := (passLoop_trace_mem w.fuel w.cfg flag true _ (e, st1, tr) heq).2 hm
            exact ⟨hmem.1, hmem.2.1, hmem.2.2.1⟩
          · rintro ⟨hf, how, hcl⟩
            have hf2 : flag = true := hf
            have how2 : w.cfg.owner = true := how
            have hcl2 : w.cfg.closed = false := hcl
            rw [hf2] at heq
            have := passLoop_cleaning_trace w.fuel w.cfg true _ (e, st1, tr) hcl2 how2 heq
            simp [PassRecord.trace] at this ⊢
            rw [this]
            simp
        · exact hA rec hrec2
      · intro rec hrec
        rcases List.mem_cons.mp hrec with rfl | hrec2
        · intro hm
          exact ((passLoop_trace_mem w.fuel w.cfg flag true _ (e, st1, tr) heq).2 hm).2.2.2
        · exact hB rec hrec2
      · intro rec0 h0
        simp only [List.head?_cons, Option.some.injEq] at h0
        subst h0
        rfl
      · cases ha2 : a.2.2 with
        | nil => simp
        | cons b l =>
          rw [List.chain'_cons]
          constructor
          · have := hC b (by rw [ha2]; rfl)
            simpa using this
          · rw [ha2] at hD
            exact hD

/-- C5 witness: the amended theorem applied to a single owner wake with the
flag set and empty queues: the pass performs the cleaning and nothing else,
and the flag is cleared. -/
theorem cleanJobs_gating_witness :
    workerLoop c5wWakes true emptyMeta = Option.some (false, emptyMeta, [c5wRec]) ∧
    ((∀ rec ∈ [c5wRec], (Event.cleanQueue ∈ rec.trace ↔
        (rec.flagAtStart = true ∧ rec.owner = true ∧ rec.closed = false))) ∧
      (∀ rec ∈ [c5wRec], Event.cleanQueue ∈ rec.trace → rec.trace = [Event.cleanQueue]) ∧
      (∀ rec0, [c5wRec].head? = Option.some rec0 → rec0.flagAtStart = true) ∧
      List.Chain' (fun a b => b.flagAtStart = if a.err.isNone then false else a.flagAtStart)
        [c5wRec]) :=
  ⟨rfl, cleanJobs_gating c5wWakes true emptyMeta false emptyMeta [c5wRec] rfl⟩

/-- C5 counterexample: a process whose first wake happens while it is not yet
the owner clears the in-memory shouldCleanJobs flag (the pass returned no
error), so after it becomes owner the migration never runs in that owner
incarnation: with a pending legacy job, the second (owner) pass fully
processes a current-queue job while the legacy queue is left untouched and no
cleaning step is ever recorded — contradicting the claims that the migration
runs once per owner incarnation before any current-queue job, that its gate
is persisted, and that an ownership change mid-drain resumes the drain. -/
theorem cleanJobs_skipped_after_nonowner_pass_cex :
    (c5Run.map (fun r => (r.2.1.addIndexQueue, r.2.2.map PassRecord.trace))) =
      Option.some ([c5Legacy],
        [[], [Event.runJob 3, Event.schemaWait 1, Event.finalize 3, Event.notifyDone]]) := by
  rfl
